import Mathlib

/-!
# Clay — verification of the terminal-emulation / action-registry core

The repository ships the core as a compiled tool; its terminal engine and
action/keybinding state machine are specified in the design document. The
definitions below are a shallow embedding of that core: the action registry
with its conflict resolver, the grid buffer with scrollback, the
escape-sequence interpreter, the session lifecycle, and the two small
client-side entry points that are present as TypeScript sources
(`src/app.tsx`, `src/entry-client.tsx`).
-/

namespace Clay

/-! ## Keybindings, actions and the registry -/

/-- Modelled from the spec: a Keybinding is "a normalized (modifiers, key)
pair"; equality is exact. -/
structure Keybinding where
  ctrl : Bool
  alt : Bool
  shift : Bool
  key : Char
deriving DecidableEq

/-- Modelled from the spec: an Action's invocation effect is "a discriminated
variant: run-shell-command | internal-command | open-menu". -/
inductive ActionEffect
  | runShellCommand (cmd : String)
  | internalCommand (name : String)
  | openMenu (name : String)
deriving DecidableEq

/-- Modelled from the spec: an Action is "{ identifier, display label, default
keybinding, current keybinding (possibly overridden), enabled/disabled
predicate, invocation effect }".  The enabled predicate is modelled as its
current boolean value. -/
structure Action where
  id : String
  label : String
  defaultKb : Option Keybinding
  currentKb : Option Keybinding
  enabled : Bool
  effect : ActionEffect
deriving DecidableEq

/-- The Action Registry owns all Actions; insertion order is display order,
so the registry is the ordered list of its actions. -/
abbrev Registry := List Action

/-- `collides aid kb a`: action `a` is a *different* action currently holding
the candidate keybinding `kb`. -/
def collides (aid : String) (kb : Keybinding) (a : Action) : Bool :=
  a.id != aid && a.currentKb == some kb

/-- Overwrite the current keybinding of one action, leaving all others as
they are. -/
def setKbFun (aid : String) (kbo : Option Keybinding) (a : Action) : Action :=
  if a.id == aid then { a with currentKb := kbo } else a

/-- Overwrite the current keybinding of the action with identifier `aid`. -/
def setKb (reg : Registry) (aid : String) (kb : Option Keybinding) : Registry :=
  reg.map (setKbFun aid kb)

/-- Look an action up by identifier. -/
def lookupAction (reg : Registry) (aid : String) : Option Action :=
  reg.find? (fun a => a.id == aid)

/-- The keybinding currently held by the action with identifier `aid`
(its "previous" keybinding from the point of view of a rebind). -/
def prevKb (reg : Registry) (aid : String) : Option Keybinding :=
  (lookupAction reg aid).bind Action.currentKb

/-- Result of running a candidate rebinding through the Conflict Resolver:
either the rebinding is applied directly, or a Conflict result naming the
colliding action is returned (and the registry is not changed). -/
inductive RebindResult
  | applied (reg : Registry)
  | conflict (colliding : Action)
deriving DecidableEq

/-- Modelled from the spec: `rebind(action_id, new_keybinding)` goes through
the Conflict Resolver, which scans all *other* Actions for an equal
Keybinding; zero matches apply directly, a match returns a Conflict result
naming the colliding action. -/
def rebind (reg : Registry) (aid : String) (kb : Keybinding) : RebindResult :=
  match reg.find? (collides aid kb) with
  | none => .applied (setKb reg aid (some kb))
  | some b => .conflict b

/-- The three resolution strategies offered on a Conflict result. -/
inductive Resolution
  | swap
  | unbind
  | cancel
deriving DecidableEq

/-- Modelled from the spec: applying the caller's chosen resolution of a
conflict between the rebinding action `aid` (candidate keybinding `kb`) and
the colliding action `cid` — swap (colliding action takes the rebinding
action's previous keybinding), unbind (colliding action loses its
keybinding), or cancel (no change). -/
def applyResolution (reg : Registry) (aid : String) (kb : Keybinding)
    (cid : String) : Resolution → Registry
  | .swap => setKb (setKb reg cid (prevKb reg aid)) aid (some kb)
  | .unbind => setKb (setKb reg cid none) aid (some kb)
  | .cancel => reg

/-- `register` inserts an action at the end of the registry (insertion order
is display order) with its default keybinding as current. -/
def withDefault (a : Action) : Action :=
  { a with currentKb := a.defaultKb }

/-- Two actions do not share a (present) keybinding. -/
def noShare (a b : Action) : Prop :=
  ∀ kb : Keybinding, a.currentKb = some kb → b.currentKb ≠ some kb

theorem noShare_iff (a b : Action) :
    noShare a b ↔
      (a.currentKb = none ∨ b.currentKb = none ∨ a.currentKb ≠ b.currentKb) := by
  constructor
  · intro h
    cases ha : a.currentKb with
    | none => exact .inl rfl
    | some k =>
      cases hb : b.currentKb with
      | none => exact .inr (.inl rfl)
      | some k2 =>
        refine .inr (.inr ?_)
        intro he
        exact h k ha (hb.trans he.symm)
  · rintro (h | h | h) kb hkb
    · simp [h] at hkb
    · simp [h]
    · intro hb
      exact h (hkb.trans hb.symm)

instance (a b : Action) : Decidable (noShare a b) :=
  decidable_of_iff _ (noShare_iff a b).symm

/-- The core registry invariant: no two Actions hold an equal Keybinding. -/
def kbUnique (reg : Registry) : Prop :=
  reg.Pairwise noShare

/-- Identifiers are unique across the registry. -/
def idsUnique (reg : Registry) : Prop :=
  reg.Pairwise (fun a b => a.id ≠ b.id)

/-- The full registry invariant maintained by register/rebind. -/
def RegistryInv (reg : Registry) : Prop :=
  idsUnique reg ∧ kbUnique reg

/-- Modelled from the spec: the reachable registry states — empty at startup,
grown by `register` (compiled-in actions have fresh identifiers and
non-colliding default keybindings), and mutated only by `rebind` runs that
complete through the Conflict Resolver: either applied directly (no
collision) or resolved by the caller's swap / unbind / cancel decision. -/
inductive Reachable : Registry → Prop
  | empty : Reachable []
  | register {reg : Registry} (a : Action) :
      Reachable reg →
      (∀ b ∈ reg, b.id ≠ a.id) →
      (∀ b ∈ reg, noShare b (withDefault a)) →
      Reachable (reg ++ [withDefault a])
  | rebindApplied {reg reg' : Registry} (aid : String) (kb : Keybinding) :
      Reachable reg →
      rebind reg aid kb = .applied reg' →
      Reachable reg'
  | rebindResolved {reg : Registry} (aid : String) (kb : Keybinding)
      (b : Action) (r : Resolution) :
      Reachable reg →
      rebind reg aid kb = .conflict b →
      Reachable (applyResolution reg aid kb b.id r)

/-! ### Registry invariant machinery -/

theorem setKbFun_id (aid : String) (kbo : Option Keybinding) (a : Action) :
    (setKbFun aid kbo a).id = a.id := by
  unfold setKbFun
  split <;> rfl

theorem setKbFun_currentKb (aid : String) (kbo : Option Keybinding) (a : Action) :
    (setKbFun aid kbo a).currentKb = if a.id = aid then kbo else a.currentKb := by
  unfold setKbFun
  by_cases h : a.id = aid <;> simp [h]

theorem noShare_symm {a b : Action} (h : noShare a b) : noShare b a := by
  intro kb hb ha
  exact h kb ha hb

theorem collides_eq_true_iff (aid : String) (kb : Keybinding) (a : Action) :
    collides aid kb a = true ↔ a.id ≠ aid ∧ a.currentKb = some kb := by
  simp [collides]

theorem mem_id_eq {reg : Registry} (h : idsUnique reg) {a b : Action}
    (ha : a ∈ reg) (hb : b ∈ reg) (hid : a.id = b.id) : a = b := by
  by_contra hne
  have hsym : Symmetric fun x y : Action => x.id ≠ y.id := fun x y hxy => hxy ∘ Eq.symm
  exact (h.forall hsym ha hb hne) hid

theorem inv_noShare_of_ne {reg : Registry} (h : RegistryInv reg) {a b : Action}
    (ha : a ∈ reg) (hb : b ∈ reg) (hid : a.id ≠ b.id) : noShare a b := by
  have hsym : Symmetric fun x y : Action => x.id = y.id ∨ noShare x y := by
    intro x y hxy
    rcases hxy with h1 | h1
    · exact .inl h1.symm
    · exact .inr (noShare_symm h1)
  have hp : reg.Pairwise fun x y : Action => x.id = y.id ∨ noShare x y :=
    h.2.imp (fun hxy => .inr hxy)
  have hne : a ≠ b := fun he => hid (he ▸ rfl)
  rcases hp.forall hsym ha hb hne with h1 | h1
  · exact absurd h1 hid
  · exact h1

theorem holder_id_eq {reg : Registry} (h : RegistryInv reg) {a b : Action} {kb : Keybinding}
    (ha : a ∈ reg) (hb : b ∈ reg)
    (hka : a.currentKb = some kb) (hkb : b.currentKb = some kb) : a.id = b.id := by
  by_contra hne
  exact (inv_noShare_of_ne h ha hb hne) kb hka hkb

theorem find?_unique_eq_some {p : Action → Bool} {reg : Registry} {b : Action}
    (hb : b ∈ reg) (hpb : p b = true) (huniq : ∀ c ∈ reg, p c = true → c = b) :
    reg.find? p = some b := by
  induction reg with
  | nil => cases hb
  | cons x xs ih =>
      by_cases hx : p x = true
      · rw [List.find?_cons_of_pos _ hx]
        exact congrArg some (huniq x (List.mem_cons_self x xs) hx)
      · rw [List.find?_cons_of_neg _ hx]
        have hb' : b ∈ xs := by
          rcases List.mem_cons.mp hb with h1 | h1
          · exact absurd (h1 ▸ hpb) hx
          · exact h1
        exact ih hb' (fun c hc hp => huniq c (List.mem_cons_of_mem _ hc) hp)

theorem lookupAction_of_mem {reg : Registry} (h : idsUnique reg) {a : Action}
    (ha : a ∈ reg) : lookupAction reg a.id = some a := by
  apply find?_unique_eq_some ha (by simp)
  intro c hc hp
  exact mem_id_eq h hc ha (by simpa using hp)

theorem prevKb_cases (reg : Registry) (aid : String) :
    prevKb reg aid = none ∨
      ∃ a0, a0 ∈ reg ∧ a0.id = aid ∧ a0.currentKb = prevKb reg aid := by
  cases hl : lookupAction reg aid with
  | none =>
      left
      simp [prevKb, hl]
  | some a0 =>
      right
      refine ⟨a0, List.mem_of_find?_eq_some hl, ?_, by simp [prevKb, hl]⟩
      have := List.find?_some hl
      simpa using this

theorem inv_register {reg : Registry} (a : Action) (h : RegistryInv reg)
    (hid : ∀ b ∈ reg, b.id ≠ a.id) (hkb : ∀ b ∈ reg, noShare b (withDefault a)) :
    RegistryInv (reg ++ [withDefault a]) := by
  constructor
  · rw [idsUnique, List.pairwise_append]
    refine ⟨h.1, by simp, ?_⟩
    intro x hx y hy
    rw [List.mem_singleton] at hy
    subst hy
    simpa [withDefault] using hid x hx
  · rw [kbUnique, List.pairwise_append]
    refine ⟨h.2, by simp, ?_⟩
    intro x hx y hy
    rw [List.mem_singleton] at hy
    subst hy
    exact hkb x hx

theorem inv_rebind_applied {reg : Registry} {aid : String} {kb : Keybinding}
    (h : RegistryInv reg)
    (hfind : reg.find? (collides aid kb) = none) :
    RegistryInv (setKb reg aid (some kb)) := by
  have hnone : ∀ x ∈ reg, x.id = aid ∨ x.currentKb ≠ some kb := by
    intro x hx
    have hnc := List.find?_eq_none.mp hfind x hx
    rw [collides_eq_true_iff] at hnc
    by_cases hxid : x.id = aid
    · exact .inl hxid
    · exact .inr (fun hk => hnc ⟨hxid, hk⟩)
  constructor
  · rw [idsUnique, setKb, List.pairwise_map]
    exact h.1.imp (by intro x y hxy; simpa [setKbFun_id] using hxy)
  · rw [kbUnique, setKb, List.pairwise_map]
    refine (h.2.and h.1).imp_of_mem ?_
    intro x y hx hy hxy
    obtain ⟨hns, hne⟩ := hxy
    intro k hk hk2
    rw [setKbFun_currentKb] at hk hk2
    by_cases hxa : x.id = aid
    · rw [if_pos hxa] at hk
      obtain rfl : kb = k := Option.some.inj hk
      by_cases hya : y.id = aid
      · exact hne (hxa.trans hya.symm)
      · rw [if_neg hya] at hk2
        rcases hnone y hy with h1 | h1
        · exact hya h1
        · exact h1 hk2
    · rw [if_neg hxa] at hk
      by_cases hya : y.id = aid
      · rw [if_pos hya] at hk2
        obtain rfl : kb = k := Option.some.inj hk2
        rcases hnone x hx with h1 | h1
        · exact hxa h1
        · exact h1 hk
      · rw [if_neg hya] at hk2
        exact hns k hk hk2

theorem inv_resolve {reg : Registry} {aid : String} {kb : Keybinding} {b : Action}
    (prevv : Option Keybinding)
    (h : RegistryInv reg) (hbmem : b ∈ reg) (hbid : b.id ≠ aid)
    (hbkb : b.currentKb = some kb)
    (hpv : prevv = none ∨ ∃ a0, a0 ∈ reg ∧ a0.id = aid ∧ a0.currentKb = prevv) :
    RegistryInv (setKb (setKb reg b.id prevv) aid (some kb)) := by
  have hhold : ∀ c ∈ reg, c.currentKb = some kb → c.id = b.id := fun c hc hck =>
    holder_id_eq h hc hbmem hck hbkb
  rw [setKb, setKb, List.map_map]
  constructor
  · rw [idsUnique, List.pairwise_map]
    exact h.1.imp (by intro x y hxy; simpa [Function.comp, setKbFun_id] using hxy)
  · rw [kbUnique, List.pairwise_map]
    refine (h.2.and h.1).imp_of_mem ?_
    intro x y hx hy hxy
    obtain ⟨hns, hne⟩ := hxy
    intro k hk hk2
    simp only [Function.comp, setKbFun_currentKb, setKbFun_id] at hk hk2
    by_cases hxa : x.id = aid
    · rw [if_pos hxa] at hk
      obtain rfl : kb = k := Option.some.inj hk
      by_cases hya : y.id = aid
      · exact hne (hxa.trans hya.symm)
      · rw [if_neg hya] at hk2
        by_cases hyb : y.id = b.id
        · rw [if_pos hyb] at hk2
          rcases hpv with rfl | ⟨a0, ha0, ha0id, ha0kb⟩
          · exact Option.noConfusion hk2
          · have hab : a0.id = b.id := hhold a0 ha0 (ha0kb.trans hk2)
            exact hbid (hab ▸ ha0id)
        · rw [if_neg hyb] at hk2
          exact hyb (hhold y hy hk2)
    · rw [if_neg hxa] at hk
      by_cases hya : y.id = aid
      · rw [if_pos hya] at hk2
        obtain rfl : kb = k := Option.some.inj hk2
        by_cases hxb : x.id = b.id
        · rw [if_pos hxb] at hk
          rcases hpv with rfl | ⟨a0, ha0, ha0id, ha0kb⟩
          · exact Option.noConfusion hk
          · have hab : a0.id = b.id := hhold a0 ha0 (ha0kb.trans hk)
            exact hbid (hab ▸ ha0id)
        · rw [if_neg hxb] at hk
          exact hxb (hhold x hx hk)
      · rw [if_neg hya] at hk2
        by_cases hxb : x.id = b.id
        · rw [if_pos hxb] at hk
          by_cases hyb : y.id = b.id
          · exact hne (hxb.trans hyb.symm)
          · rw [if_neg hyb] at hk2
            rcases hpv with rfl | ⟨a0, ha0, ha0id, ha0kb⟩
            · exact Option.noConfusion hk
            · have hno : noShare a0 y :=
                inv_noShare_of_ne h ha0 hy
                  (by rw [ha0id]; exact fun hh => hya hh.symm)
              exact hno k (ha0kb.trans hk) hk2
        · rw [if_neg hxb] at hk
          by_cases hyb : y.id = b.id
          · rw [if_pos hyb] at hk2
            rcases hpv with rfl | ⟨a0, ha0, ha0id, ha0kb⟩
            · exact Option.noConfusion hk2
            · have hno : noShare x a0 :=
                inv_noShare_of_ne h hx ha0 (by rw [ha0id]; exact hxa)
              exact hno k hk (ha0kb.trans hk2)
          · rw [if_neg hyb] at hk2
            exact hns k hk hk2

theorem reachable_inv {reg : Registry} (h : Reachable reg) : RegistryInv reg := by
  induction h with
  | empty => exact ⟨List.Pairwise.nil, List.Pairwise.nil⟩
  | register a _ hid hkb ih => exact inv_register a ih hid hkb
  | rebindApplied aid kb _ happ ih =>
      unfold rebind at happ
      split at happ
      next hfind =>
        cases happ
        exact inv_rebind_applied ih hfind
      next b hfind => cases happ
  | rebindResolved aid kb b r _ hconf ih =>
      unfold rebind at hconf
      split at hconf
      next hfind => cases hconf
      next b' hfind =>
        cases hconf
        have hbmem := List.mem_of_find?_eq_some hfind
        have hcol := (collides_eq_true_iff aid kb b).mp (List.find?_some hfind)
        cases r with
        | cancel => simpa [applyResolution] using ih
        | swap =>
            exact inv_resolve (prevKb _ aid) ih hbmem hcol.1 hcol.2
              (prevKb_cases _ aid)
        | unbind => exact inv_resolve none ih hbmem hcol.1 hcol.2 (.inl rfl)

theorem lookupAction_map_id_preserving (reg : Registry) (f : Action → Action)
    (hf : ∀ a, (f a).id = a.id) (i : String) :
    lookupAction (reg.map f) i = (lookupAction reg i).map f := by
  unfold lookupAction
  rw [List.find?_map]
  have hp : ((fun a : Action => a.id == i) ∘ f) = fun a : Action => a.id == i :=
    funext fun a => by simp [Function.comp, hf]
  rw [hp]

theorem lookup_setKb (reg : Registry) (aid : String) (kbo : Option Keybinding)
    (i : String) :
    lookupAction (setKb reg aid kbo) i
      = (lookupAction reg i).map (setKbFun aid kbo) := by
  unfold setKb
  exact lookupAction_map_id_preserving reg _ (setKbFun_id aid kbo) i

/-- Some concrete values for witnesses: the spec's conflict scenario has
action "run" bound to Ctrl+R and action "build" unbound. -/
def ctrlR : Keybinding := ⟨true, false, false, 'r'⟩

def demoRun : Action :=
  ⟨"run", "Run", some ctrlR, some ctrlR, true, .internalCommand "run"⟩

def demoBuild : Action :=
  ⟨"build", "Build", none, none, true, .runShellCommand "cargo build"⟩

/-- C1: Registry uniqueness invariant — in every reachable state of the
Action Registry (after any sequence of register and rebind operations, each
rebind completed through the Conflict Resolver), no two Actions hold an
equal Keybinding. -/
theorem registry_uniqueness {reg : Registry} (h : Reachable reg) : kbUnique reg :=
  (reachable_inv h).2

theorem registry_uniqueness_witness :
    kbUnique [withDefault demoRun, withDefault demoBuild] :=
  registry_uniqueness
    (Reachable.register demoBuild
      (Reachable.register demoRun Reachable.empty (by simp) (by simp))
      (by simp [withDefault, demoRun, demoBuild])
      (by
        intro b hb
        exact (noShare_iff b (withDefault demoBuild)).mpr (.inr (.inl rfl))))

/-- C2: Conflict Resolver correctness — if no other Action holds an equal
Keybinding, the rebinding is applied directly; if exactly one other Action
holds it (there is at most one by the registry invariant), a Conflict result
naming that action is returned; cancel leaves the registry unchanged; swap
gives the colliding action the rebinding action's previous keybinding and
the rebinding action the new one; unbind removes the colliding action's
keybinding and applies the new one; all other actions are untouched. -/
theorem conflict_resolver_correct (reg : Registry) (aid : String) (kb : Keybinding) :
    ((∀ b ∈ reg, b.id ≠ aid → b.currentKb ≠ some kb) →
        rebind reg aid kb = .applied (setKb reg aid (some kb))) ∧
    (∀ b ∈ reg, RegistryInv reg → b.id ≠ aid → b.currentKb = some kb →
        rebind reg aid kb = .conflict b) ∧
    (∀ cid : String, applyResolution reg aid kb cid .cancel = reg) ∧
    (∀ b ∈ reg, RegistryInv reg → b.id ≠ aid →
        lookupAction (applyResolution reg aid kb b.id .swap) b.id
            = some { b with currentKb := prevKb reg aid } ∧
        lookupAction (applyResolution reg aid kb b.id .unbind) b.id
            = some { b with currentKb := none } ∧
        (∀ a0 ∈ reg, a0.id = aid →
          lookupAction (applyResolution reg aid kb b.id .swap) aid
              = some { a0 with currentKb := some kb } ∧
          lookupAction (applyResolution reg aid kb b.id .unbind) aid
              = some { a0 with currentKb := some kb }) ∧
        (∀ c ∈ reg, c.id ≠ aid → c.id ≠ b.id →
          c ∈ applyResolution reg aid kb b.id .swap ∧
          c ∈ applyResolution reg aid kb b.id .unbind)) := by
  refine ⟨?_, ?_, ?_, ?_⟩
  · intro hno
    have hfind : reg.find? (collides aid kb) = none := by
      rw [List.find?_eq_none]
      intro x hx hcx
      rw [collides_eq_true_iff] at hcx
      exact hno x hx hcx.1 hcx.2
    unfold rebind
    rw [hfind]
  · intro b hb hinv hbne hbkb
    have hfind : reg.find? (collides aid kb) = some b := by
      apply find?_unique_eq_some hb
      · rw [collides_eq_true_iff]
        exact ⟨hbne, hbkb⟩
      · intro c hc hpc
        rw [collides_eq_true_iff] at hpc
        exact mem_id_eq hinv.1 hc hb (holder_id_eq hinv hc hb hpc.2 hbkb)
    unfold rebind
    rw [hfind]
  · intro cid
    rfl
  · intro b hb hinv hbne
    have hbl : lookupAction reg b.id = some b := lookupAction_of_mem hinv.1 hb
    refine ⟨?_, ?_, ?_, ?_⟩
    · show lookupAction (setKb (setKb reg b.id (prevKb reg aid)) aid (some kb)) b.id = _
      rw [lookup_setKb, lookup_setKb, hbl]
      simp [setKbFun, hbne]
    · show lookupAction (setKb (setKb reg b.id none) aid (some kb)) b.id = _
      rw [lookup_setKb, lookup_setKb, hbl]
      simp [setKbFun, hbne]
    · intro a0 ha0 ha0id
      have ha0l : lookupAction reg aid = some a0 := by
        have := lookupAction_of_mem hinv.1 ha0
        rwa [ha0id] at this
      have hab : aid ≠ b.id := by
        rw [← ha0id]
        rw [ha0id]
        exact fun hh => hbne hh.symm
      constructor
      · show lookupAction (setKb (setKb reg b.id (prevKb reg aid)) aid (some kb)) aid = _
        rw [lookup_setKb, lookup_setKb, ha0l]
        simp [setKbFun, ha0id, hab]
      · show lookupAction (setKb (setKb reg b.id none) aid (some kb)) aid = _
        rw [lookup_setKb, lookup_setKb, ha0l]
        simp [setKbFun, ha0id, hab]
    · intro c hc hca hcb
      constructor <;>
      · show c ∈ setKb (setKb reg b.id _) aid (some kb)
        unfold setKb
        rw [List.map_map]
        refine List.mem_map.mpr ⟨c, hc, ?_⟩
        simp [Function.comp, setKbFun, hca, hcb]

theorem conflict_resolver_correct_witness :
    rebind [demoRun, demoBuild] "build" ctrlR = .conflict demoRun ∧
    lookupAction
        (applyResolution [demoRun, demoBuild] "build" ctrlR demoRun.id .swap)
        demoRun.id
      = some { demoRun with currentKb := prevKb [demoRun, demoBuild] "build" } ∧
    applyResolution [demoRun, demoBuild] "build" ctrlR demoRun.id .cancel
      = [demoRun, demoBuild] := by
  have h := conflict_resolver_correct [demoRun, demoBuild] "build" ctrlR
  have hinv : RegistryInv [demoRun, demoBuild] := by
    unfold RegistryInv idsUnique kbUnique
    exact ⟨by decide, by decide⟩
  refine ⟨?_, ?_, ?_⟩
  · exact h.2.1 demoRun (by simp) hinv (by decide) (by decide)
  · exact ((h.2.2.2 demoRun (by simp) hinv (by decide))).1
  · exact h.2.2.1 demoRun.id

/-! ## The Grid Buffer -/

/-- A cell color: the default color or an indexed ANSI color
(SGR 30–37 select foreground colors 0–7; 1 is red). -/
inductive Color
  | default
  | ansi (n : Nat)
deriving DecidableEq

/-- Modelled from the spec: style flags (bold, underline, inverse) plus
foreground and background color. -/
structure Style where
  fg : Color
  bg : Color
  bold : Bool
  underline : Bool
  inverse : Bool
deriving DecidableEq

/-- The default style carried by a freshly cleared cell. -/
def Style.init : Style := ⟨.default, .default, false, false, false⟩

/-- Modelled from the spec: a Cell is "{ glyph, foreground color, background
color, style flags }"; an immutable value type. -/
structure Cell where
  glyph : Char
  style : Style
deriving DecidableEq

/-- A blank cell with the default style. -/
def blankCell : Cell := ⟨' ', Style.init⟩

/-- A blank row of the given width. -/
def blankRow (w : Nat) : List Cell := List.replicate w blankCell

/-- Modelled from the spec: the Grid is a width × height cell matrix plus a
scrollback sequence of historical rows, bounded by a configurable ceiling
with the oldest rows evicted first.  `scrollback` is ordered newest first:
its head is the row most recently scrolled off the top of the live grid. -/
structure Grid where
  width : Nat
  height : Nat
  rows : List (List Cell)
  scrollback : List (List Cell)
  sbLimit : Nat
deriving DecidableEq

/-- Well-formedness of a grid: the live matrix really is width × height and
the scrollback respects its ceiling. -/
def Grid.WF (g : Grid) : Prop :=
  g.rows.length = g.height ∧ (∀ r ∈ g.rows, r.length = g.width) ∧
    g.scrollback.length ≤ g.sbLimit

/-- Map over a list with the index of each element. -/
def mapIdxFrom {α : Type} (f : Nat → α → α) : Nat → List α → List α
  | _, [] => []
  | s, a :: as => f s a :: mapIdxFrom f (s + 1) as

theorem length_mapIdxFrom {α : Type} (f : Nat → α → α) :
    ∀ (s : Nat) (l : List α), (mapIdxFrom f s l).length = l.length := by
  intro s l
  induction l generalizing s with
  | nil => rfl
  | cons a as ih => simp [mapIdxFrom, ih]

theorem mem_mapIdxFrom {α : Type} (f : Nat → α → α) :
    ∀ (s : Nat) (l : List α) (b : α), b ∈ mapIdxFrom f s l →
      ∃ i a, a ∈ l ∧ b = f i a := by
  intro s l
  induction l generalizing s with
  | nil => intro b hb; cases hb
  | cons a as ih =>
      intro b hb
      rcases List.mem_cons.mp hb with h1 | h1
      · exact ⟨s, a, List.mem_cons_self a as, h1⟩
      · obtain ⟨i, x, hx, hbx⟩ := ih (s + 1) b h1
        exact ⟨i, x, List.mem_cons_of_mem a hx, hbx⟩

theorem getElem?_mapIdxFrom {α : Type} (f : Nat → α → α) :
    ∀ (s : Nat) (l : List α) (i : Nat),
      (mapIdxFrom f s l)[i]? = (l[i]?).map (f (s + i)) := by
  intro s l
  induction l generalizing s with
  | nil => intro i; simp [mapIdxFrom]
  | cons a as ih =>
      intro i
      cases i with
      | zero => simp [mapIdxFrom]
      | succ j =>
          simp only [mapIdxFrom, List.getElem?_cons_succ]
          rw [ih (s + 1) j]
          have hsj : s + 1 + j = s + (j + 1) := by omega
          rw [hsj]

/-- `write(cell, row, col)`: overwrite one cell of the live grid in place;
out-of-range coordinates leave the grid unchanged (the cursor invariant keeps
them in range). -/
def Grid.write (g : Grid) (c : Cell) (row col : Nat) : Grid :=
  { g with
      rows := mapIdxFrom
        (fun i r =>
          if i = row then mapIdxFrom (fun j old => if j = col then c else old) 0 r
          else r)
        0 g.rows }

/-- Read one cell of the live grid. -/
def Grid.cellAt (g : Grid) (row col : Nat) : Option Cell :=
  (g.rows[row]?).bind (fun r => r[col]?)

/-- Modelled from the spec: `scroll_up(1)` moves the top row into scrollback
(newest first), shifts the remaining rows up, and clears the new bottom row;
the scrollback is truncated to its ceiling, dropping the oldest rows. -/
def Grid.scrollUp1 (g : Grid) : Grid :=
  match g.rows with
  | [] => g
  | r0 :: rest =>
      { g with
          rows := rest ++ [blankRow g.width],
          scrollback := (r0 :: g.scrollback).take g.sbLimit }

/-- `scroll_up(n)` is `n` single-row scrolls. -/
def Grid.scrollUp (g : Grid) : Nat → Grid
  | 0 => g
  | n + 1 => g.scrollUp1.scrollUp n

/-- Truncate or pad one live row to the new width. -/
def resizeRow (w : Nat) (r : List Cell) : List Cell :=
  r.take w ++ List.replicate (w - r.length) blankCell

/-- Modelled from the spec: `resize(width, height)` truncates or pads the
live rows and columns; the scrollback is not reflowed. -/
def Grid.resize (g : Grid) (w h : Nat) : Grid :=
  { width := w
    height := h
    rows := ((g.rows.map (resizeRow w)).take h)
      ++ List.replicate (h - g.rows.length) (blankRow w)
    scrollback := g.scrollback
    sbLimit := g.sbLimit }

/-! ### Scroll and resize lemmas -/

theorem take_append_take {α : Type} (x y : List α) (L : Nat) :
    (x ++ y.take L).take L = (x ++ y).take L := by
  rw [List.take_append_eq_append_take, List.take_append_eq_append_take,
    List.take_take]
  congr 1
  rw [inf_eq_left.mpr (Nat.sub_le L x.length)]

theorem scrollUp1_WF {g : Grid} (h : g.WF) : g.scrollUp1.WF := by
  obtain ⟨hlen, hwid, hsb⟩ := h
  unfold Grid.scrollUp1
  cases hr : g.rows with
  | nil => exact ⟨hlen, hwid, hsb⟩
  | cons r0 rest =>
      refine ⟨?_, ?_, ?_⟩
      · simp only []
        rw [List.length_append]
        simp only [List.length_singleton]
        rw [← hlen, hr]
        simp
      · intro r hrm
        simp only [] at hrm
        rcases List.mem_append.mp hrm with h1 | h1
        · exact hwid r (hr ▸ List.mem_cons_of_mem r0 h1)
        · rw [List.mem_singleton] at h1
          subst h1
          simp [blankRow]
      · simp only []
        calc ((r0 :: g.scrollback).take g.sbLimit).length
            = min g.sbLimit (r0 :: g.scrollback).length := by
              rw [List.length_take]
          _ ≤ g.sbLimit := Nat.min_le_left _ _

theorem scrollUp_spec :
    ∀ (n : Nat) (g : Grid), g.WF → n ≤ g.rows.length →
      (g.scrollUp n).width = g.width ∧
      (g.scrollUp n).height = g.height ∧
      (g.scrollUp n).sbLimit = g.sbLimit ∧
      (g.scrollUp n).rows = g.rows.drop n ++ List.replicate n (blankRow g.width) ∧
      (g.scrollUp n).scrollback
        = ((g.rows.take n).reverse ++ g.scrollback).take g.sbLimit := by
  intro n
  induction n with
  | zero =>
      intro g hwf _
      refine ⟨rfl, rfl, rfl, by simp [Grid.scrollUp], ?_⟩
      simp only [Grid.scrollUp, List.take_zero, List.reverse_nil, List.nil_append]
      exact (List.take_of_length_le hwf.2.2).symm
  | succ n ih =>
      intro g hwf hn
      have hex : ∃ r0 rest, g.rows = r0 :: rest := by
        cases hgr : g.rows with
        | nil =>
            rw [hgr] at hn
            exact absurd hn (by simp)
        | cons a b => exact ⟨a, b, rfl⟩
      obtain ⟨r0, rest, hr⟩ := hex
      have hg1 : g.scrollUp1 =
          { g with
              rows := rest ++ [blankRow g.width],
              scrollback := (r0 :: g.scrollback).take g.sbLimit } := by
        unfold Grid.scrollUp1
        rw [hr]
      have hwf1 : g.scrollUp1.WF := scrollUp1_WF hwf
      have hlen1 : g.scrollUp1.rows.length = g.rows.length := by
        rw [hg1, hr]
        simp
      have hn1 : n ≤ g.scrollUp1.rows.length := by
        rw [hlen1]
        omega
      have hstep : g.scrollUp (n + 1) = g.scrollUp1.scrollUp n := rfl
      obtain ⟨ihw, ihh, ihs, ihr, ihsb⟩ := ih g.scrollUp1 hwf1 hn1
      have hw1 : g.scrollUp1.width = g.width := by rw [hg1]
      have hh1 : g.scrollUp1.height = g.height := by rw [hg1]
      have hs1 : g.scrollUp1.sbLimit = g.sbLimit := by rw [hg1]
      have hrest : n ≤ rest.length := by
        rw [hr] at hn
        simpa using hn
      refine ⟨by rw [hstep, ihw, hw1], by rw [hstep, ihh, hh1],
        by rw [hstep, ihs, hs1], ?_, ?_⟩
      · rw [hstep, ihr, hw1, hg1]
        simp only []
        rw [List.drop_append_of_le_length hrest, hr, List.drop_succ_cons]
        rw [List.append_assoc]
        congr 1
      · rw [hstep, ihsb, hs1, hg1]
        simp only []
        rw [List.take_append_of_le_length hrest, take_append_take, hr,
          List.take_succ_cons, List.reverse_cons, List.append_assoc]
        rfl

/-- C4: `scroll_up` correctness — `scroll_up(1)` places the former row 0 at
the top (head) of the scrollback and leaves the live grid's last row blank;
applying it `height` times leaves the live grid entirely blank (the live
grid itself is never evicted) and moves the live content into the
scrollback, newest first, truncated to the scrollback ceiling so the oldest
entries are evicted first; with an empty initial scrollback and a ceiling of
at least `height`, the scrollback afterwards is exactly the original live
content. -/
theorem scroll_up_correct {g : Grid} (hwf : g.WF) (hsb : 1 ≤ g.sbLimit)
    (hh : 0 < g.height) :
    g.scrollUp1.scrollback.head? = some (g.rows.headD []) ∧
    g.scrollUp1.rows.getLast? = some (blankRow g.width) ∧
    (g.scrollUp g.height).rows = List.replicate g.height (blankRow g.width) ∧
    (g.scrollUp g.height).scrollback
      = (g.rows.reverse ++ g.scrollback).take g.sbLimit ∧
    (g.scrollback = [] → g.height ≤ g.sbLimit →
      (g.scrollUp g.height).scrollback = g.rows.reverse) := by
  have hlen : g.rows.length = g.height := hwf.1
  have hex : ∃ r0 rest, g.rows = r0 :: rest := by
    cases hgr : g.rows with
    | nil =>
        rw [hgr] at hlen
        simp at hlen
        omega
    | cons a b => exact ⟨a, b, rfl⟩
  obtain ⟨r0, rest, hr⟩ := hex
  have hspec := scrollUp_spec g.height g hwf (by omega)
  have hg1 : g.scrollUp1 =
      { g with
          rows := rest ++ [blankRow g.width],
          scrollback := (r0 :: g.scrollback).take g.sbLimit } := by
    unfold Grid.scrollUp1
    rw [hr]
  have hL : g.sbLimit ≠ 0 := by omega
  refine ⟨?_, ?_, ?_, ?_, ?_⟩
  · rw [hg1]
    simp only []
    rw [List.head?_take]
    simp [hL, hr]
  · rw [hg1]
    simp only []
    exact List.getLast?_concat rest
  · rw [hspec.2.2.2.1, ← hlen]
    simp [List.drop_length]
  · rw [hspec.2.2.2.2, ← hlen, List.take_length]
  · intro hemp hle
    rw [hspec.2.2.2.2, ← hlen, List.take_length, hemp, List.append_nil]
    exact List.take_of_length_le (by rw [List.length_reverse]; omega)

def demoGrid : Grid :=
  ⟨2, 2, [[⟨'a', Style.init⟩, ⟨'b', Style.init⟩],
          [⟨'c', Style.init⟩, ⟨'d', Style.init⟩]], [], 3⟩

theorem scroll_up_correct_witness :
    demoGrid.scrollUp1.scrollback.head? = some (demoGrid.rows.headD []) ∧
    (demoGrid.scrollUp demoGrid.height).scrollback = demoGrid.rows.reverse := by
  have h := @scroll_up_correct demoGrid (by unfold Grid.WF demoGrid; decide) (by decide)
    (by decide)
  exact ⟨h.1, h.2.2.2.2 (by decide) (by decide)⟩

/-- C5: Resize frame condition — resizing from width 80 to width 40 with the
height unchanged keeps columns 0–39 of every live row unmodified, discards
columns 40–79 rather than wrapping them, keeps the number of live rows, and
does not reflow the scrollback. -/
theorem resize_correct {g : Grid} (hwf : g.WF) (hw : g.width = 80) :
    (g.resize 40 g.height).rows = g.rows.map (fun r => r.take 40) ∧
    (g.resize 40 g.height).scrollback = g.scrollback ∧
    (g.resize 40 g.height).rows.length = g.rows.length ∧
    (∀ row col, col < 40 →
      (g.resize 40 g.height).cellAt row col = g.cellAt row col) ∧
    (∀ row col, 40 ≤ col → (g.resize 40 g.height).cellAt row col = none) := by
  have hlen : g.rows.length = g.height := hwf.1
  have hrows : (g.resize 40 g.height).rows = g.rows.map (fun r => r.take 40) := by
    have hmap : g.rows.map (resizeRow 40) = g.rows.map (fun r => r.take 40) := by
      apply List.map_congr_left
      intro r hrm
      have hr80 : r.length = 80 := by rw [hwf.2.1 r hrm, hw]
      unfold resizeRow
      rw [hr80]
      simp
    unfold Grid.resize
    simp only [hlen, Nat.sub_self, List.replicate_zero, List.append_nil, hmap]
    apply List.take_of_length_le
    exact le_of_eq (by rw [List.length_map, hlen])
  refine ⟨hrows, rfl, by rw [hrows]; simp, ?_, ?_⟩
  · intro row col hcol
    unfold Grid.cellAt
    rw [hrows, List.getElem?_map]
    cases hrw : g.rows[row]? with
    | none => rfl
    | some r =>
        simp only [Option.map_some', Option.some_bind]
        rw [List.getElem?_take]
        simp [hcol]
  · intro row col hcol
    unfold Grid.cellAt
    rw [hrows, List.getElem?_map]
    cases hrw : g.rows[row]? with
    | none => rfl
    | some r =>
        simp only [Option.map_some', Option.some_bind]
        apply List.getElem?_eq_none
        calc (r.take 40).length = min 40 r.length := by rw [List.length_take]
          _ ≤ 40 := Nat.min_le_left _ _
          _ ≤ col := hcol

theorem resize_correct_witness :
    ∃ g : Grid, g.WF ∧ g.width = 80 ∧
      (g.resize 40 g.height).rows = g.rows.map (fun r => r.take 40) ∧
      (g.resize 40 g.height).scrollback = g.scrollback := by
  refine ⟨⟨80, 1, [blankRow 80], [], 4⟩, ?_, rfl, ?_, ?_⟩
  · refine ⟨rfl, ?_, by simp⟩
    intro r hrm
    rw [List.mem_singleton] at hrm
    subst hrm
    simp [blankRow]
  · exact (@resize_correct ⟨80, 1, [blankRow 80], [], 4⟩
      ⟨rfl, by intro r hrm; rw [List.mem_singleton] at hrm; subst hrm; simp [blankRow], by simp⟩ rfl).1
  · exact (@resize_correct ⟨80, 1, [blankRow 80], [], 4⟩
      ⟨rfl, by intro r hrm; rw [List.mem_singleton] at hrm; subst hrm; simp [blankRow], by simp⟩ rfl).2.1

/-! ## The Escape-Sequence Interpreter -/

/-- Modelled from the spec: the interpreter's current mode — Ground, Escape,
CSI-parameter-collection, OSC-string-collection — plus an accumulating
parameter buffer (`cur`/`curSet` hold the digits of the parameter currently
being read). -/
inductive ParserMode
  | ground
  | escape
  | csi (params : List Nat) (cur : Nat) (curSet : Bool)
  | osc (buf : List Nat)
deriving DecidableEq

/-- Modelled from the spec: Cursor State is position (row, col), a visibility
flag, and the current pending style applied to the next written glyph. -/
structure Cursor where
  row : Nat
  col : Nat
  visible : Bool
  style : Style
deriving DecidableEq

/-- The interpreter state: the grid it mutates, the cursor state it owns, the
saved cursor position, the parser mode and the bracketed-paste pass-through
flag. -/
structure Emu where
  grid : Grid
  cursor : Cursor
  savedCursor : Option (Nat × Nat)
  parser : ParserMode
  bracketedPaste : Bool
deriving DecidableEq

/-- One SGR parameter: 0 resets, 1/4/7 set the style flags, 30–37 / 40–47
select ANSI colors, 39/49 restore default colors; anything else is ignored. -/
def applySgrParam (st : Style) (p : Nat) : Style :=
  if p = 0 then Style.init
  else if p = 1 then { st with bold := true }
  else if p = 4 then { st with underline := true }
  else if p = 7 then { st with inverse := true }
  else if p = 39 then { st with fg := .default }
  else if p = 49 then { st with bg := .default }
  else if 30 ≤ p ∧ p ≤ 37 then { st with fg := .ansi (p - 30) }
  else if 40 ≤ p ∧ p ≤ 47 then { st with bg := .ansi (p - 40) }
  else st

/-- SGR with no parameters is a full reset. -/
def applySgr (st : Style) : List Nat → Style
  | [] => Style.init
  | ps => ps.foldl applySgrParam st

/-- Movement parameter `i` with default `d` (a missing or zero parameter
means the default, per the CSI conventions). -/
def getParam (ps : List Nat) (i d : Nat) : Nat :=
  match ps[i]? with
  | none => d
  | some 0 => d
  | some n => n

/-- Literal parameter `i` (missing means 0, as for erase modes). -/
def rawParam (ps : List Nat) (i : Nat) : Nat :=
  (ps[i]?).getD 0

/-- Erase within one row: mode 0 from `col` to the end, mode 1 from the start
through `col`, mode 2 the whole row; other modes leave the row unchanged. -/
def eraseLineCells (mode col : Nat) (r : List Cell) : List Cell :=
  mapIdxFrom
    (fun j cell =>
      if mode = 0 then (if col ≤ j then blankCell else cell)
      else if mode = 1 then (if j ≤ col then blankCell else cell)
      else if mode = 2 then blankCell
      else cell) 0 r

/-- CSI K — erase in the cursor's line. -/
def eraseInLine (g : Grid) (row col mode : Nat) : Grid :=
  { g with
      rows := mapIdxFrom
        (fun i r => if i = row then eraseLineCells mode col r else r) 0 g.rows }

/-- CSI J — erase in screen: mode 0 from the cursor to the end, mode 1 from
the start through the cursor, mode 2 the full screen; other modes are
ignored. -/
def eraseInScreen (g : Grid) (row col mode : Nat) : Grid :=
  { g with
      rows := mapIdxFrom
        (fun i r =>
          if mode = 0 then
            (if i < row then r
             else if i = row then eraseLineCells 0 col r
             else blankRow g.width)
          else if mode = 1 then
            (if i < row then blankRow g.width
             else if i = row then eraseLineCells 1 col r
             else r)
          else if mode = 2 then blankRow g.width
          else r) 0 g.rows }

/-- Write a glyph with the pending style at the cursor and advance the
cursor, clamping at the right edge. -/
def putGlyph (e : Emu) (ch : Char) : Emu :=
  { e with
      grid := e.grid.write ⟨ch, e.cursor.style⟩ e.cursor.row e.cursor.col,
      cursor := { e.cursor with
        col := min (e.cursor.col + 1) (e.grid.width - 1) } }

/-- Line feed: move down one row, scrolling the grid when at the bottom. -/
def lineFeed (e : Emu) : Emu :=
  if e.cursor.row + 1 < e.grid.height then
    { e with cursor := { e.cursor with row := e.cursor.row + 1 } }
  else
    { e with grid := e.grid.scrollUp1 }

/-- Restore the saved cursor position, clamped into the current bounds. -/
def restoreCursor (e : Emu) : Emu :=
  match e.savedCursor with
  | none => e
  | some (r, c) =>
      { e with cursor := { e.cursor with
          row := min r (e.grid.height - 1),
          col := min c (e.grid.width - 1) } }

/-- Modelled from the spec: execute one complete CSI command.  Cursor moves
(A/B/C/D and H/f) clamp at the grid edges; J/K erase; m applies SGR; s/u
save and restore the cursor; any other final byte is discarded without
effect. -/
def executeCsi (e : Emu) (ps : List Nat) (fb : Nat) : Emu :=
  if fb = 0x41 then
    { e with cursor := { e.cursor with
        row := e.cursor.row - getParam ps 0 1 } }
  else if fb = 0x42 then
    { e with cursor := { e.cursor with
        row := min (e.cursor.row + getParam ps 0 1) (e.grid.height - 1) } }
  else if fb = 0x43 then
    { e with cursor := { e.cursor with
        col := min (e.cursor.col + getParam ps 0 1) (e.grid.width - 1) } }
  else if fb = 0x44 then
    { e with cursor := { e.cursor with
        col := e.cursor.col - getParam ps 0 1 } }
  else if fb = 0x48 ∨ fb = 0x66 then
    { e with cursor := { e.cursor with
        row := min (getParam ps 0 1 - 1) (e.grid.height - 1),
        col := min (getParam ps 1 1 - 1) (e.grid.width - 1) } }
  else if fb = 0x4A then
    { e with grid := eraseInScreen e.grid e.cursor.row e.cursor.col (rawParam ps 0) }
  else if fb = 0x4B then
    { e with grid := eraseInLine e.grid e.cursor.row e.cursor.col (rawParam ps 0) }
  else if fb = 0x6D then
    { e with cursor := { e.cursor with style := applySgr e.cursor.style ps } }
  else if fb = 0x73 then
    { e with savedCursor := some (e.cursor.row, e.cursor.col) }
  else if fb = 0x75 then
    restoreCursor e
  else e

/-- Close the parameter buffer on a final byte. -/
def finalizeParams (ps : List Nat) (cur : Nat) (curSet : Bool) : List Nat :=
  if curSet ∨ ps ≠ [] then ps ++ [cur] else []

/-- Modelled from the spec: consume one byte of the child-process stream.
Every byte either appends a glyph, accumulates or executes a control
sequence, or is silently absorbed; malformed or unknown sequences reset the
parser to Ground without any other effect. -/
def step (e : Emu) (b : Nat) : Emu :=
  match e.parser with
  | .ground =>
      if b = 0x1B then { e with parser := .escape }
      else if b = 0x0A then lineFeed e
      else if b = 0x0D then { e with cursor := { e.cursor with col := 0 } }
      else if b = 0x08 then
        { e with cursor := { e.cursor with col := e.cursor.col - 1 } }
      else if 0x20 ≤ b ∧ b ≤ 0x7E then putGlyph e (Char.ofNat b)
      else e
  | .escape =>
      if b = 0x5B then { e with parser := .csi [] 0 false }
      else if b = 0x5D then { e with parser := .osc [] }
      else if b = 0x37 then
        { e with savedCursor := some (e.cursor.row, e.cursor.col),
                 parser := .ground }
      else if b = 0x38 then { restoreCursor e with parser := .ground }
      else { e with parser := .ground }
  | .csi ps cur cs =>
      if 0x30 ≤ b ∧ b ≤ 0x39 then
        { e with parser := .csi ps (cur * 10 + (b - 0x30)) true }
      else if b = 0x3B then { e with parser := .csi (ps ++ [cur]) 0 false }
      else if b = 0x3F then e
      else if 0x40 ≤ b ∧ b ≤ 0x7E then
        executeCsi { e with parser := .ground } (finalizeParams ps cur cs) b
      else { e with parser := .ground }
  | .osc buf =>
      if b = 0x07 then { e with parser := .ground }
      else if b = 0x1B then { e with parser := .ground }
      else { e with parser := .osc (buf ++ [b]) }

/-- Feed a whole byte stream to the interpreter. -/
def processBytes (e : Emu) (bs : List Nat) : Emu :=
  bs.foldl step e

/-- A fresh emulator over a blank w × h grid. -/
def initEmu (w h : Nat) : Emu :=
  ⟨⟨w, h, List.replicate h (blankRow w), [], 1000⟩,
   ⟨0, 0, true, Style.init⟩, none, .ground, false⟩

/-- The interpreter's running invariant: a well-formed grid and a cursor
within [0,width) × [0,height). -/
def ValidEmu (e : Emu) : Prop :=
  e.grid.WF ∧ e.cursor.row < e.grid.height ∧ e.cursor.col < e.grid.width

/-! ### Interpreter safety machinery -/

theorem scrollUp1_width (g : Grid) : g.scrollUp1.width = g.width := by
  unfold Grid.scrollUp1
  split <;> rfl

theorem scrollUp1_height (g : Grid) : g.scrollUp1.height = g.height := by
  unfold Grid.scrollUp1
  split <;> rfl

theorem mapIdx_rows_WF {g : Grid} (h : g.WF) (f : Nat → List Cell → List Cell)
    (hf : ∀ i r, r.length = g.width → (f i r).length = g.width) :
    Grid.WF { g with rows := mapIdxFrom f 0 g.rows } := by
  refine ⟨?_, ?_, h.2.2⟩
  · simp only []
    rw [length_mapIdxFrom]
    exact h.1
  · intro r hrm
    obtain ⟨i, a, ham, hra⟩ := mem_mapIdxFrom f 0 g.rows r hrm
    subst hra
    exact hf i a (h.2.1 a ham)

theorem eraseLineCells_length (mode col : Nat) (r : List Cell) :
    (eraseLineCells mode col r).length = r.length := by
  unfold eraseLineCells
  rw [length_mapIdxFrom]

theorem write_WF {g : Grid} (h : g.WF) (c : Cell) (row col : Nat) :
    (g.write c row col).WF := by
  unfold Grid.write
  apply mapIdx_rows_WF h
  intro i r hr
  split
  · rw [length_mapIdxFrom]
    exact hr
  · exact hr

theorem eraseInLine_WF {g : Grid} (h : g.WF) (row col mode : Nat) :
    (eraseInLine g row col mode).WF := by
  unfold eraseInLine
  apply mapIdx_rows_WF h
  intro i r hr
  split
  · rw [eraseLineCells_length]
    exact hr
  · exact hr

theorem eraseInScreen_WF {g : Grid} (h : g.WF) (row col mode : Nat) :
    (eraseInScreen g row col mode).WF := by
  unfold eraseInScreen
  apply mapIdx_rows_WF h
  intro i r hr
  split_ifs <;>
    simp [eraseLineCells_length, blankRow, hr]

theorem restoreCursor_valid {e : Emu} (h : ValidEmu e) :
    ValidEmu (restoreCursor e) := by
  obtain ⟨hwf, hrow, hcol⟩ := h
  have hh : 0 < e.grid.height := Nat.lt_of_le_of_lt (Nat.zero_le _) hrow
  have hw : 0 < e.grid.width := Nat.lt_of_le_of_lt (Nat.zero_le _) hcol
  unfold restoreCursor
  split
  · exact ⟨hwf, hrow, hcol⟩
  · exact ⟨hwf,
      Nat.lt_of_le_of_lt (min_le_right _ _) (Nat.sub_lt hh Nat.one_pos),
      Nat.lt_of_le_of_lt (min_le_right _ _) (Nat.sub_lt hw Nat.one_pos)⟩

set_option maxHeartbeats 1000000 in
theorem executeCsi_valid {e : Emu} (h : ValidEmu e) (ps : List Nat) (fb : Nat) :
    ValidEmu (executeCsi e ps fb) := by
  obtain ⟨hwf, hrow, hcol⟩ := h
  have hh : 0 < e.grid.height := Nat.lt_of_le_of_lt (Nat.zero_le _) hrow
  have hw : 0 < e.grid.width := Nat.lt_of_le_of_lt (Nat.zero_le _) hcol
  unfold executeCsi
  split_ifs
  · exact ⟨hwf, Nat.lt_of_le_of_lt (Nat.sub_le _ _) hrow, hcol⟩
  · exact ⟨hwf,
      Nat.lt_of_le_of_lt (min_le_right _ _) (Nat.sub_lt hh Nat.one_pos), hcol⟩
  · exact ⟨hwf, hrow,
      Nat.lt_of_le_of_lt (min_le_right _ _) (Nat.sub_lt hw Nat.one_pos)⟩
  · exact ⟨hwf, hrow, Nat.lt_of_le_of_lt (Nat.sub_le _ _) hcol⟩
  · exact ⟨hwf,
      Nat.lt_of_le_of_lt (min_le_right _ _) (Nat.sub_lt hh Nat.one_pos),
      Nat.lt_of_le_of_lt (min_le_right _ _) (Nat.sub_lt hw Nat.one_pos)⟩
  · exact ⟨eraseInScreen_WF hwf _ _ _, hrow, hcol⟩
  · exact ⟨eraseInLine_WF hwf _ _ _, hrow, hcol⟩
  · exact ⟨hwf, hrow, hcol⟩
  · exact ⟨hwf, hrow, hcol⟩
  · exact restoreCursor_valid ⟨hwf, hrow, hcol⟩
  · exact ⟨hwf, hrow, hcol⟩

set_option maxHeartbeats 1000000 in
theorem step_valid {e : Emu} (h : ValidEmu e) (b : Nat) : ValidEmu (step e b) := by
  obtain ⟨hwf, hrow, hcol⟩ := h
  have hh : 0 < e.grid.height := Nat.lt_of_le_of_lt (Nat.zero_le _) hrow
  have hw : 0 < e.grid.width := Nat.lt_of_le_of_lt (Nat.zero_le _) hcol
  unfold step
  split
  · -- ground
    split_ifs
    · exact ⟨hwf, hrow, hcol⟩
    · unfold lineFeed
      split_ifs with hlf
      · exact ⟨hwf, hlf, hcol⟩
      · refine ⟨scrollUp1_WF hwf, ?_, ?_⟩
        · rw [scrollUp1_height]
          exact hrow
        · rw [scrollUp1_width]
          exact hcol
    · exact ⟨hwf, hrow, hw⟩
    · exact ⟨hwf, hrow, Nat.lt_of_le_of_lt (Nat.sub_le _ _) hcol⟩
    · unfold putGlyph
      exact ⟨write_WF hwf _ _ _, hrow,
        Nat.lt_of_le_of_lt (min_le_right _ _) (Nat.sub_lt hw Nat.one_pos)⟩
    · exact ⟨hwf, hrow, hcol⟩
  · -- escape
    split_ifs
    · exact ⟨hwf, hrow, hcol⟩
    · exact ⟨hwf, hrow, hcol⟩
    · exact ⟨hwf, hrow, hcol⟩
    · exact restoreCursor_valid ⟨hwf, hrow, hcol⟩
    · exact ⟨hwf, hrow, hcol⟩
  · -- csi
    split_ifs
    · exact ⟨hwf, hrow, hcol⟩
    · exact ⟨hwf, hrow, hcol⟩
    · exact ⟨hwf, hrow, hcol⟩
    · exact @executeCsi_valid { e with parser := .ground } ⟨hwf, hrow, hcol⟩ _ _
    · exact ⟨hwf, hrow, hcol⟩
  · -- osc
    split_ifs
    · exact ⟨hwf, hrow, hcol⟩
    · exact ⟨hwf, hrow, hcol⟩
    · exact ⟨hwf, hrow, hcol⟩

theorem processBytes_valid {e : Emu} (h : ValidEmu e) (bs : List Nat) :
    ValidEmu (processBytes e bs) := by
  induction bs generalizing e with
  | nil => exact h
  | cons b bs ih => exact ih (step_valid h b)

theorem initEmu_valid (w h : Nat) (hw : 0 < w) (hh : 0 < h) :
    ValidEmu (initEmu w h) := by
  refine ⟨⟨?_, ?_, ?_⟩, hh, hw⟩
  · simp [initEmu]
  · intro r hrm
    simp only [initEmu] at hrm
    rw [List.mem_replicate] at hrm
    rw [hrm.2]
    simp [initEmu, blankRow]
  · simp [initEmu]

/-! ## Claims about the interpreter -/

/-- The CSI final bytes of the supported cursor-movement commands:
A, B, C, D, H, f. -/
def csiMoveFinals : List Nat := [0x41, 0x42, 0x43, 0x44, 0x48, 0x66]

/-- All CSI final bytes the interpreter executes. -/
def supportedCsiFinals : List Nat :=
  [0x41, 0x42, 0x43, 0x44, 0x48, 0x66, 0x4A, 0x4B, 0x6D, 0x73, 0x75]

/-- A complete CSI sequence: ESC `[` , parameter bytes, final byte. -/
def csiSeq (paramBytes : List Nat) (fb : Nat) : List Nat :=
  0x1B :: 0x5B :: (paramBytes ++ [fb])

/-- C3: Cursor bounds invariant — applying any supported CSI cursor-movement
sequence (any parameter bytes, final byte among A/B/C/D/H/f) from a valid
state leaves the cursor inside [0,width) × [0,height); moreover the
movement commands clamp at the edges (truncated subtraction at the
top/left, `min` against the last row/column at the bottom/right) rather
than wrapping. -/
theorem cursor_movement_in_bounds {e : Emu} (h : ValidEmu e)
    (pb : List Nat) (fb : Nat) (hfb : fb ∈ csiMoveFinals) :
    ((processBytes e (csiSeq pb fb)).cursor.row
        < (processBytes e (csiSeq pb fb)).grid.height ∧
      (processBytes e (csiSeq pb fb)).cursor.col
        < (processBytes e (csiSeq pb fb)).grid.width) ∧
    (∀ ps : List Nat,
      (executeCsi e ps 0x41).cursor.row = e.cursor.row - getParam ps 0 1 ∧
      (executeCsi e ps 0x42).cursor.row
          = min (e.cursor.row + getParam ps 0 1) (e.grid.height - 1) ∧
      (executeCsi e ps 0x43).cursor.col
          = min (e.cursor.col + getParam ps 0 1) (e.grid.width - 1) ∧
      (executeCsi e ps 0x44).cursor.col = e.cursor.col - getParam ps 0 1 ∧
      (executeCsi e ps 0x48).cursor.row
          = min (getParam ps 0 1 - 1) (e.grid.height - 1) ∧
      (executeCsi e ps 0x48).cursor.col
          = min (getParam ps 1 1 - 1) (e.grid.width - 1)) := by
  constructor
  · have hv := processBytes_valid h (csiSeq pb fb)
    exact ⟨hv.2.1, hv.2.2⟩
  · intro ps
    refine ⟨?_, ?_, ?_, ?_, ?_, ?_⟩ <;> (unfold executeCsi; norm_num)

theorem cursor_movement_in_bounds_witness :
    (processBytes (initEmu 4 3) (csiSeq [0x39] 0x42)).cursor.row
        < (processBytes (initEmu 4 3) (csiSeq [0x39] 0x42)).grid.height ∧
    (processBytes (initEmu 4 3) (csiSeq [0x39] 0x42)).cursor.col
        < (processBytes (initEmu 4 3) (csiSeq [0x39] 0x42)).grid.width :=
  (cursor_movement_in_bounds
    (initEmu_valid 4 3 (by decide) (by decide)) [0x39] 0x42 (by decide)).1

/-- The byte stream of the spec's SGR round trip: ESC [ 1 ; 3 1 m, "A",
ESC [ 0 m, "B". -/
def roundTripBytes : List Nat :=
  [0x1B, 0x5B, 0x31, 0x3B, 0x33, 0x31, 0x6D, 0x41, 0x1B, 0x5B, 0x30, 0x6D, 0x42]

/-- C6: SGR style postcondition — on a fresh 80×24 emulator, writing "A"
after SGR bold+red (ESC[1;31m), then SGR reset (ESC[0m), then "B", leaves
cell (0,0) holding glyph A with the bold flag and red (ANSI 1) foreground,
and cell (0,1) holding glyph B with the default style. -/
theorem sgr_roundtrip :
    (processBytes (initEmu 80 24) roundTripBytes).grid.cellAt 0 0
        = some ⟨'A', ⟨Color.ansi 1, Color.default, true, false, false⟩⟩ ∧
    (processBytes (initEmu 80 24) roundTripBytes).grid.cellAt 0 1
        = some ⟨'B', Style.init⟩ := by
  constructor <;> rfl

/-- C8: Parser robustness — the interpreter is a total function over byte
streams: from any valid state every byte stream is processed to a valid
state (no halt, block or error); an unknown CSI final byte discards the
sequence, resetting the parser to Ground with the grid, cursor and all
other state unchanged; a malformed byte inside a CSI sequence likewise
just resets the parser. -/
theorem parser_robustness :
    (∀ (e : Emu) (bs : List Nat), ValidEmu e → ValidEmu (processBytes e bs)) ∧
    (∀ (e : Emu) (ps : List Nat) (cur : Nat) (cs : Bool) (b : Nat),
      e.parser = .csi ps cur cs → 0x40 ≤ b → b ≤ 0x7E →
      b ∉ supportedCsiFinals →
        step e b = { e with parser := .ground }) ∧
    (∀ (e : Emu) (ps : List Nat) (cur : Nat) (cs : Bool) (b : Nat),
      e.parser = .csi ps cur cs → b < 0x30 →
        step e b = { e with parser := .ground }) := by
  refine ⟨fun e bs h => processBytes_valid h bs, ?_, ?_⟩
  · intro e ps cur cs b hp h40 h7e hns
    simp only [supportedCsiFinals, List.mem_cons, List.not_mem_nil, or_false,
      not_or] at hns
    obtain ⟨g, c, sv, p, bp⟩ := e
    simp only [] at hp
    subst hp
    unfold step
    dsimp only
    have h1 : ¬(0x30 ≤ b ∧ b ≤ 0x39) := by omega
    have h2 : b ≠ 0x3B := by omega
    have h3 : b ≠ 0x3F := by omega
    rw [if_neg h1, if_neg h2, if_neg h3, if_pos ⟨h40, h7e⟩]
    unfold executeCsi
    rw [if_neg hns.1, if_neg hns.2.1, if_neg hns.2.2.1, if_neg hns.2.2.2.1,
      if_neg (not_or.mpr ⟨hns.2.2.2.2.1, hns.2.2.2.2.2.1⟩),
      if_neg hns.2.2.2.2.2.2.1, if_neg hns.2.2.2.2.2.2.2.1,
      if_neg hns.2.2.2.2.2.2.2.2.1, if_neg hns.2.2.2.2.2.2.2.2.2.1,
      if_neg hns.2.2.2.2.2.2.2.2.2.2]
  · intro e ps cur cs b hp hb
    obtain ⟨g, c, sv, p, bp⟩ := e
    simp only [] at hp
    subst hp
    unfold step
    dsimp only
    have h1 : ¬(0x30 ≤ b ∧ b ≤ 0x39) := by omega
    have h2 : b ≠ 0x3B := by omega
    have h3 : b ≠ 0x3F := by omega
    have h4 : ¬(0x40 ≤ b ∧ b ≤ 0x7E) := by omega
    rw [if_neg h1, if_neg h2, if_neg h3, if_neg h4]

theorem parser_robustness_witness :
    ValidEmu (processBytes (initEmu 3 2) [27, 91, 300, 7, 27, 91, 63, 200, 77]) ∧
    step { initEmu 3 2 with parser := ParserMode.csi [9999] 0 false } 0x51
      = { { initEmu 3 2 with parser := ParserMode.csi [9999] 0 false } with
            parser := ParserMode.ground } := by
  constructor
  · exact parser_robustness.1 (initEmu 3 2) _
      (initEmu_valid 3 2 (by decide) (by decide))
  · exact parser_robustness.2.1 _ [9999] 0 false 0x51 rfl (by decide) (by decide)
      (by decide)

/-! ## The Session lifecycle -/

/-- Modelled from the spec: a Session's lifecycle phase — running with the
child alive, or ended (child exited, pty closed, or explicit
termination). -/
inductive SessionPhase
  | running
  | ended
deriving DecidableEq

/-- Modelled from the spec: the Session Manager's session state as seen
through its contract — the lifecycle phase plus the child output produced
but not yet polled (SessionEnded is signalled once this buffer is
drained). -/
structure Session where
  phase : SessionPhase
  buffered : List Nat
deriving DecidableEq

/-- One poll result: available output bytes, or EOF. -/
inductive PollResult
  | output (bs : List Nat)
  | eof
deriving DecidableEq

/-- Modelled from the spec: terminating a Session marks it ended; doing so
on an already-ended session is a no-op, not an error. -/
def terminate (s : Session) : Session :=
  { s with phase := .ended }

/-- Modelled from the spec: `poll_output` is non-blocking — it hands over
any buffered output, and signals EOF once the session has ended and the
buffered output is drained. -/
def pollOutput (s : Session) : PollResult × Session :=
  match s.phase, s.buffered with
  | .ended, [] => (.eof, s)
  | _, bs => (.output bs, { s with buffered := [] })

/-- `n + 1` successive polls. -/
def pollN (s : Session) : Nat → PollResult × Session
  | 0 => pollOutput s
  | n + 1 => pollN (pollOutput s).2 n

/-- C7: Session termination idempotence and post-end polling — terminating
twice equals terminating once, terminating an already-ended session leaves
it unchanged (no error), and once the session has ended with its output
drained every poll returns EOF with the state unchanged, never blocking. -/
theorem session_end_behaviour (s : Session) :
    terminate (terminate s) = terminate s ∧
    (s.phase = .ended → terminate s = s) ∧
    (s.phase = .ended → s.buffered = [] →
      ∀ n : Nat, pollN s n = (PollResult.eof, s)) := by
  obtain ⟨ph, buf⟩ := s
  refine ⟨rfl, ?_, ?_⟩
  · intro hp
    simp only [] at hp
    subst hp
    rfl
  · intro hp hb
    simp only [] at hp hb
    subst hp
    subst hb
    intro n
    induction n with
    | zero => rfl
    | succ k ih => exact ih

theorem session_end_behaviour_witness :
    terminate (terminate ⟨SessionPhase.ended, []⟩)
        = terminate ⟨SessionPhase.ended, []⟩ ∧
    pollN ⟨SessionPhase.ended, []⟩ 5 = (PollResult.eof, ⟨SessionPhase.ended, []⟩) := by
  have h := session_end_behaviour ⟨SessionPhase.ended, []⟩
  exact ⟨h.1, h.2.2 rfl rfl 5⟩

/-! ## The App counter (src/app.tsx, shipped inside the README scaffold) -/

/-- `createSignal(0)` — the count signal's initial value. -/
def initialCount : Int := 0

/-- The button's onClick handler: `setCount(count() + 1)`. -/
def clickOnce (c : Int) : Int := c + 1

/-- The displayed count after `n` clicks from the initial state. -/
def countAfterClicks : Nat → Int
  | 0 => initialCount
  | n + 1 => clickOnce (countAfterClicks n)

/-- C9: the App component's count starts at 0 and each click increments it
by exactly 1, so after n clicks the displayed count is n, never
negative. -/
theorem counter_correct (n : Nat) :
    countAfterClicks n = n ∧ 0 ≤ countAfterClicks n ∧
    countAfterClicks (n + 1) = countAfterClicks n + 1 := by
  have h : ∀ m : Nat, countAfterClicks m = m := by
    intro m
    induction m with
    | zero => rfl
    | succ k ih => simp [countAfterClicks, clickOnce, ih]
  refine ⟨h n, ?_, ?_⟩
  · rw [h n]
    exact Int.natCast_nonneg n
  · simp [countAfterClicks, clickOnce]

theorem counter_correct_witness :
    countAfterClicks 5 = 5 ∧ 0 ≤ countAfterClicks 5 :=
  ⟨(counter_correct 5).1, (counter_correct 5).2.1⟩

/-! ## The client entry point (src/entry-client.tsx) -/

/-- A DOM element as far as the entry point is concerned: its id attribute
and some content. -/
structure DomElement where
  elemId : String
  content : String
deriving DecidableEq

/-- `document.getElementById`: the first element with the given id, if
any. -/
def getElementById (doc : List DomElement) (i : String) : Option DomElement :=
  doc.find? (fun el => el.elemId == i)

/-- The outcome of the client entry's mount call: either StartClient is
mounted into the found element, or the non-null assertion fails. -/
inductive MountOutcome
  | mounted (target : DomElement)
  | failedNullAssertion
deriving DecidableEq

/-- src/entry-client.tsx:
`mount(() => <StartClient />, document.getElementById("app")!)` — the
target is looked up by id "app"; the non-null assertion turns a missing
element into a failure, never a mount elsewhere. -/
def clientEntryMount (doc : List DomElement) : MountOutcome :=
  match getElementById doc "app" with
  | some el => .mounted el
  | none => .failedNullAssertion

/-- C10: Client entry mount precondition — mounting succeeds exactly when
the document holds an element with id "app"; on success the mount target is
such an element of the document; when no element with id "app" exists, the
mount fails (non-null assertion) rather than rendering elsewhere. -/
theorem client_mount_iff (doc : List DomElement) :
    ((∃ el, clientEntryMount doc = .mounted el) ↔
      ∃ el ∈ doc, el.elemId = "app") ∧
    (∀ el, clientEntryMount doc = .mounted el →
      el ∈ doc ∧ el.elemId = "app") ∧
    (getElementById doc "app" = none →
      clientEntryMount doc = .failedNullAssertion) := by
  have hfwd : ∀ el, clientEntryMount doc = .mounted el →
      el ∈ doc ∧ el.elemId = "app" := by
    intro el hm
    unfold clientEntryMount at hm
    cases hf : getElementById doc "app" with
    | none =>
        rw [hf] at hm
        cases hm
    | some a =>
        rw [hf] at hm
        cases hm
        refine ⟨List.mem_of_find?_eq_some hf, ?_⟩
        have := List.find?_some hf
        simpa using this
  refine ⟨⟨?_, ?_⟩, hfwd, ?_⟩
  · rintro ⟨el, hm⟩
    obtain ⟨h1, h2⟩ := hfwd el hm
    exact ⟨el, h1, h2⟩
  · rintro ⟨el, hm, hid⟩
    unfold clientEntryMount
    cases hf : getElementById doc "app" with
    | none =>
        exfalso
        have := List.find?_eq_none.mp hf el hm
        simp [hid] at this
    | some a => exact ⟨a, rfl⟩
  · intro hf
    unfold clientEntryMount
    rw [hf]

theorem client_mount_iff_witness :
    ((⟨"app", "root"⟩ : DomElement) ∈ ([⟨"app", "root"⟩] : List DomElement) ∧
      (⟨"app", "root"⟩ : DomElement).elemId = "app") ∧
    clientEntryMount [⟨"other", "x"⟩] = MountOutcome.failedNullAssertion := by
  refine ⟨(client_mount_iff [⟨"app", "root"⟩]).2.1 ⟨"app", "root"⟩ (by decide), ?_⟩
  exact (client_mount_iff [⟨"other", "x"⟩]).2.2 (by decide)

end Clay
